import Mathlib

/-!
Shallow embedding of the SLR duplicate-removal pipeline.

The source is a pandas notebook with a loader (read_file), three source
adapters (adjust_wos, adjust_scopus, adjust_proquest), a merger (merge_dfs)
and a deduplicator (rem_duplicates).  Cell values are modelled by an
inductive Value type (string, integer, or missing, where missing stands for
NaN), raw tables by a DF structure (column names plus association-list
rows), and the merged unified table by lists of a Row structure with the
five unified fields.  External library functions (the pandas string
methods, pandas parsers and the unidecode function) are modelled by
explicit Lean functions or by parameters; each such model is documented at
its definition.
-/

/-- A cell value of a raw table: a string, an integer, or missing (NaN). -/
inductive Value where
  | str : String → Value
  | int : Int → Value
  | missing : Value
deriving DecidableEq, Repr

/-- A raw table row: an association list from column names to values.
Lookup takes the first matching entry, so prepending an entry overwrites. -/
abbrev RowA := List (String × Value)

/-- A raw pandas DataFrame: the list of column names and the rows. -/
structure DF where
  cols : List String
  rows : List RowA
deriving DecidableEq, Repr

/-- Reading a cell of a row by column name; absent entries read as missing
(pandas yields NaN for a column that a row does not carry). -/
def getCell (row : RowA) (c : String) : Value :=
  (row.lookup c).getD Value.missing

/-- Model of the pandas column assignment df[c] = v with a constant value:
the column is added to the schema when new, and every row gets the value. -/
def setCol (df : DF) (c : String) (v : Value) : DF :=
  { cols := if c ∈ df.cols then df.cols else df.cols ++ [c],
    rows := df.rows.map (fun row => (c, v) :: row) }

/-- The error raised when a column selection names absent columns.  This
models the KeyError that pandas raises from df[[...]] when some of the
requested columns are not in the frame; the error message lists exactly
the missing column names, recorded here in the missing field. -/
structure SchemaMismatch where
  missing : List String
deriving DecidableEq, Repr

/-- Model of df[[c1, ..., cn]]: keep only the requested columns, in the
requested order.  When some requested column is absent the call raises,
naming all missing columns; no table with substituted nulls is produced. -/
def selectColsE (df : DF) (cs : List String) : Except SchemaMismatch DF :=
  let miss := cs.filter (fun c => !(df.cols.contains c))
  if miss = [] then
    .ok { cols := cs, rows := df.rows.map (fun row => cs.map (fun c => (c, getCell row c))) }
  else
    .error ⟨miss⟩

/-- Model of df.rename with a mapping on column names: names in the mapping
are replaced, all other names are kept. -/
def renameCols (df : DF) (m : List (String × String)) : DF :=
  { cols := df.cols.map (fun c => ((m.lookup c).getD c)),
    rows := df.rows.map (fun row => row.map (fun p => (((m.lookup p.1).getD p.1), p.2))) }

/-- Model of a pandas .str series operation: it acts on string cells and
turns every non-string cell (including NaN) into NaN. -/
def strVal (f : String → String) : Value → Value
  | .str s => .str (f s)
  | _ => .missing

/-- Model of assigning a transformed column back into the frame,
df[c] = f(df[c]): the named column is rewritten cell by cell. -/
def mapCol (df : DF) (c : String) (f : Value → Value) : DF :=
  { cols := df.cols,
    rows := df.rows.map (fun row => row.map (fun p => if p.1 = c then (p.1, f p.2) else p)) }

/-- Model of .str.replace(" ", "", regex=False): every occurrence of the
space character U+0020 is removed; no other character is touched. -/
def removeSpaces (s : String) : String :=
  ⟨s.data.filter (fun c => c ≠ ' ')⟩

/-- Model of the Python str.lower method, restricted to ASCII case
folding (Char.toLower lowers exactly the letters A-Z). -/
def pyLower (s : String) : String :=
  ⟨s.data.map Char.toLower⟩

/-- The characters stripped by the Python str.strip() default. -/
def isPySpace (c : Char) : Bool :=
  c = ' ' || c = '\t' || c = '\n' || c = '\r' || c = '\x0b' || c = '\x0c'

/-- Model of the Python str.strip() default: drop leading and trailing
whitespace characters. -/
def pyStrip (s : String) : String :=
  ⟨((s.data.dropWhile isPySpace).reverse.dropWhile isPySpace).reverse⟩

/-- Scanning helper for the regex removal below: given the characters
after an opening parenthesis, return the suffix after the next closing
parenthesis, or none when no closing parenthesis is reachable (the dot of
the regex does not cross a newline). -/
def findClose : List Char → Option (List Char)
  | [] => none
  | c :: rest =>
    if c = ')' then some rest
    else if c = '\n' then none
    else findClose rest

theorem findClose_length :
    ∀ (l r : List Char), findClose l = some r → r.length < l.length := by
  intro l
  induction l with
  | nil => intro r h; simp [findClose] at h
  | cons c rest ih =>
    intro r h
    by_cases hc : c = ')'
    · simp [findClose, hc] at h
      subst h
      simp
    · by_cases hn : c = '\n'
      · simp [findClose, hc, hn] at h
      · simp [findClose, hc, hn] at h
        exact Nat.lt_succ_of_lt (ih r h)

/-- Worker for the parenthetical removal, structurally recursive on a fuel
counter so that it evaluates by kernel reduction; any fuel above the list
length leaves the result independent of the fuel, because every step both
consumes one fuel unit and strictly shortens the list. -/
def stripParensGo : Nat → List Char → List Char
  | 0, _ => []
  | _ + 1, [] => []
  | n + 1, c :: rest =>
    if c = '(' then
      match findClose rest with
      | some rest2 => stripParensGo n rest2
      | none => c :: stripParensGo n rest
    else c :: stripParensGo n rest

/-- Model of re.sub applied with the non-greedy parenthesis pattern and an
empty replacement: repeatedly, the leftmost opening parenthesis together
with everything up to the next closing parenthesis is deleted, provided no
newline intervenes; an opening parenthesis without a reachable close is
kept verbatim. -/
def stripParensL (l : List Char) : List Char :=
  stripParensGo (l.length + 1) l

/-- String version of the parenthetical removal. -/
def stripParensS (s : String) : String :=
  ⟨stripParensL s.data⟩

/-- The five Web of Science columns kept by adjust_wos (the Database
column is injected by the adapter itself before the selection). -/
def wosCols : List String :=
  ["Author Full Names", "Article Title", "Publication Year", "Database", "Times Cited, WoS Core"]

/-- The Web of Science columns that must already be present in the raw
export for adjust_wos to succeed. -/
def wosRequired : List String :=
  ["Author Full Names", "Article Title", "Publication Year", "Times Cited, WoS Core"]

/-- The five Scopus columns selected (and required) by adjust_scopus. -/
def scopusCols : List String :=
  ["Author full names", "Title", "Year", "Source", "Cited by"]

/-- The five ProQuest columns selected (and required) by adjust_proquest. -/
def proquestCols : List String :=
  ["Author", "Title", "PubDate", "Source", "Cited by"]

/-- Adapter for the Web of Science export: inject the constant Database
label, select the five columns, rename them to the unified names, remove
spaces from Authors, lowercase Authors and Title. -/
def adjust_wos (df : DF) : Except SchemaMismatch DF := do
  let df := setCol df "Database" (Value.str "Web of Science")
  let df ← selectColsE df wosCols
  let df := renameCols df
    [("Author Full Names", "Authors"), ("Article Title", "Title"),
     ("Publication Year", "Year"), ("Times Cited, WoS Core", "Citations")]
  let df := mapCol df "Authors" (strVal removeSpaces)
  let df := mapCol df "Authors" (strVal pyLower)
  let df := mapCol df "Title" (strVal pyLower)
  return df

/-- Adapter for the Scopus export: select the five columns, rename them,
remove spaces from Authors, lowercase Authors and Title, then delete the
parenthesised affiliation text from Authors and strip the result. -/
def adjust_scopus (df : DF) : Except SchemaMismatch DF := do
  let df ← selectColsE df scopusCols
  let df := renameCols df
    [("Author full names", "Authors"), ("Cited by", "Citations"), ("Source", "Database")]
  let df := mapCol df "Authors" (strVal removeSpaces)
  let df := mapCol df "Authors" (strVal pyLower)
  let df := mapCol df "Title" (strVal pyLower)
  let df := mapCol df "Authors" (strVal (fun s => pyStrip (stripParensS s)))
  return df

/-- Model of pandas to_datetime followed by .dt.year, for ISO formatted
yyyy-mm-dd date strings: the leading four digits give the year.  An
integer cell is kept; anything unparseable is missing. -/
def yearOfDate : Value → Value
  | .str s =>
    match s.data with
    | a :: b :: c :: d :: _ =>
      if a.isDigit && b.isDigit && c.isDigit && d.isDigit then
        .int ((a.toNat - 48) * 1000 + (b.toNat - 48) * 100 + (c.toNat - 48) * 10 + (d.toNat - 48))
      else .missing
    | _ => .missing
  | .int n => .int n
  | _ => .missing

/-- Adapter for the ProQuest export: select the five columns, extract the
year from the publication date, rename to the unified names, remove spaces
from Authors, lowercase Authors and Title. -/
def adjust_proquest (df : DF) : Except SchemaMismatch DF := do
  let df ← selectColsE df proquestCols
  let df := mapCol df "PubDate" yearOfDate
  let df := renameCols df
    [("Author", "Authors"), ("PubDate", "Year"), ("Cited by", "Citations"), ("Source", "Database")]
  let df := mapCol df "Authors" (strVal removeSpaces)
  let df := mapCol df "Authors" (strVal pyLower)
  let df := mapCol df "Title" (strVal pyLower)
  return df

/-- The two pandas parsers that read_file dispatches between.  Each is an
arbitrary function from a file path to either a parsed table or a raised
exception (carried as a message string); quantifying over this structure
quantifies over the contents of the file system. -/
structure PandasEnv where
  read_csv : String → Except String DF
  read_excel : String → Except String DF

/-- The observable outcome of read_file: a returned table, the bare-except
branch that prints a diagnostic and returns no table, or an exception that
propagates uncaught to the caller. -/
inductive ReadResult where
  | table : DF → ReadResult
  | printedNone : String → ReadResult
  | raised : String → ReadResult
deriving DecidableEq, Repr

/-- Model of the Python test filename.endswith(".csv"): the last four
characters are ".csv" (a shorter string cannot match). -/
def endsWithCsv (filename : String) : Bool :=
  filename.data.reverse.take 4 == ".csv".data.reverse

/-- The loader: a path ending in ".csv" is parsed with read_csv and any
parser exception propagates; any other path is parsed with read_excel
inside a bare try/except that prints "Wrong file format" and returns
nothing on failure. -/
def read_file (env : PandasEnv) (filename : String) : ReadResult :=
  if endsWithCsv filename then
    match env.read_csv filename with
    | .ok t => .table t
    | .error e => .raised e
  else
    match env.read_excel filename with
    | .ok t => .table t
    | .error _ => .printedNone "Wrong file format"

instance {e a : Type} [DecidableEq e] [DecidableEq a] : DecidableEq (Except e a) := fun x y =>
  match x, y with
  | .ok u, .ok v =>
    if h : u = v then .isTrue (by rw [h]) else .isFalse (fun hh => by cases hh; exact h rfl)
  | .error u, .error v =>
    if h : u = v then .isTrue (by rw [h]) else .isFalse (fun hh => by cases hh; exact h rfl)
  | .ok _, .error _ => .isFalse (fun hh => by cases hh)
  | .error _, .ok _ => .isFalse (fun hh => by cases hh)

/-- A row of the unified (post-adapter, merged) table: the five unified
fields.  The citation count is optional because the exports can lack it
(NaN); the column order of the pandas frame is not part of this model. -/
structure Row where
  authors : String
  title : String
  year : Int
  database : String
  citations : Option Int
deriving DecidableEq, Repr

/-- Model of one character step of the unidecode library: ASCII characters
map to themselves and a table of accented Latin letters folds to the base
letter (the spec names the example é to e); characters outside the table
map to the empty string.  The essential properties of the library are kept:
the output is pure ASCII, and ASCII input passes through unchanged. -/
def unidecodeChar (c : Char) : String :=
  if c.toNat < 128 then String.singleton c else
    match c with
    | 'á' => "a" | 'à' => "a" | 'ä' => "a" | 'â' => "a" | 'å' => "a"
    | 'é' => "e" | 'è' => "e" | 'ë' => "e" | 'ê' => "e"
    | 'í' => "i" | 'ì' => "i" | 'ï' => "i"
    | 'ó' => "o" | 'ò' => "o" | 'ö' => "o" | 'ô' => "o" | 'ø' => "o"
    | 'ú' => "u" | 'ù' => "u" | 'ü' => "u"
    | 'ñ' => "n" | 'ç' => "c" | 'ß' => "ss"
    | _ => ""

/-- List-of-characters worker of the unidecode model: concatenate the
per-character folds. -/
def unidecodeL (l : List Char) : List Char :=
  l.flatMap (fun c => (unidecodeChar c).data)

/-- Model of the unidecode library function: fold every character. -/
def unidecode (s : String) : String :=
  ⟨unidecodeL s.data⟩

/-- The effect of the two column assignments at the head of
rem_duplicates on one row: Authors and Title are replaced by their
unidecoded forms; the other fields are untouched. -/
def foldRow (r : Row) : Row :=
  { r with authors := unidecode r.authors, title := unidecode r.title }

/-- The composite duplicate key of a row, as used by drop_duplicates. -/
def rowKey (r : Row) : String × String × Int :=
  (r.authors, r.title, r.year)

/-- The comparison realised by sort_values on the Citations column with
ascending=False: larger counts come first and missing counts come last
(the na_position default). -/
def citGe (a b : Option Int) : Bool :=
  match a, b with
  | _, none => true
  | none, some _ => false
  | some x, some y => y ≤ x

/-- The row ordering of the citation sort. -/
def citRel (a b : Row) : Prop :=
  citGe a.citations b.citations = true

instance : DecidableRel citRel := fun a b => by
  unfold citRel; infer_instance

instance : IsTotal Row citRel := by
  constructor
  intro a b
  unfold citRel citGe
  rcases a.citations with _ | x <;> rcases b.citations with _ | y <;> simp
  omega

instance : IsTrans Row citRel := by
  constructor
  intro a b c
  unfold citRel citGe
  rcases a.citations with _ | x <;> rcases b.citations with _ | y <;>
    rcases c.citations with _ | z <;> simp
  omega

/-- The row ordering of the final presentation sort on Title. -/
def titleRel (a b : Row) : Prop :=
  a.title ≤ b.title

instance : DecidableRel titleRel := fun a b => by
  unfold titleRel; infer_instance

instance : IsTotal Row titleRel := by
  constructor
  intro a b
  exact le_total a.title b.title

instance : IsTrans Row titleRel := by
  constructor
  intro a b c h1 h2
  exact le_trans h1 h2

/-- Model of drop_duplicates on the key columns with keep="first": walk the
rows in order, keep a row when its key has not been seen, remember the key. -/
def dropDupKey : List Row → List (String × String × Int) → List Row
  | [], _ => []
  | r :: rest, seen =>
    if rowKey r ∈ seen then dropDupKey rest seen
    else r :: dropDupKey rest (rowKey r :: seen)

/-- Model of df.drop_duplicates(["Authors", "Title", "Year"], keep="first"). -/
def drop_duplicates (l : List Row) : List Row :=
  dropDupKey l []

/-- Model of pd.concat on the three adapted tables: row-wise concatenation
in source order. -/
def merge_dfs (dfWos dfScopus dfProquest : List Row) : List Row :=
  dfWos ++ dfScopus ++ dfProquest

/-- The deduplicator: unidecode Authors and Title, sort by Citations
descending (missing last), drop duplicate keys keeping the first row,
reorder columns (invisible in this row model) and sort by Title; return
the deduplicated table with its row count and the input row count.  The
sorts are realised by insertion sort, a correct refinement of sort_values:
the result is an ordered permutation.  (The tie order of the pandas
default quicksort is implementation-defined; no theorem below depends on
which ordered permutation the sort returns.) -/
def rem_duplicates (df : List Row) : List Row × Nat × Nat :=
  let dfF := df.map foldRow
  let dfSorted := List.insertionSort citRel dfF
  let df_uniques := drop_duplicates dfSorted
  let df_uniques := List.insertionSort titleRel df_uniques
  (df_uniques, df_uniques.length, dfF.length)

/-- The state of the caller-visible input table after rem_duplicates
returns: the two column assignments at the head of the function write the
unidecoded Authors and Title back into the argument frame in place (the
later sort_values and drop_duplicates rebind the local name and build new
frames, so only the folding step is visible to the caller). -/
def rem_duplicates_input_after (df : List Row) : List Row :=
  df.map foldRow

/-! Helper lemmas about the unidecode model and the duplicate drop. -/

theorem unidecodeChar_ascii (c : Char) : ∀ c2 ∈ (unidecodeChar c).data, c2.toNat < 128 := by
  unfold unidecodeChar
  by_cases hc : c.toNat < 128
  · simp only [hc, if_true]
    intro c2 h2
    have : c2 = c := by
      simpa [String.singleton] using h2
    simpa [this] using hc
  · simp only [hc, if_false]
    split <;> decide

theorem unidecodeL_ascii (l : List Char) : ∀ c ∈ unidecodeL l, c.toNat < 128 := by
  intro c hc
  simp only [unidecodeL, List.mem_flatMap] at hc
  obtain ⟨a, _, ha⟩ := hc
  exact unidecodeChar_ascii a c ha

theorem unidecodeL_of_ascii (l : List Char) (h : ∀ c ∈ l, c.toNat < 128) :
    unidecodeL l = l := by
  induction l with
  | nil => rfl
  | cons c rest ih =>
    have hc : c.toNat < 128 := h c (List.mem_cons_self c rest)
    have hrest : ∀ x ∈ rest, x.toNat < 128 := fun x hx => h x (List.mem_cons_of_mem c hx)
    simp only [unidecodeL, List.flatMap_cons] at *
    rw [ih hrest]
    simp [unidecodeChar, hc, String.singleton]

theorem unidecode_idem (s : String) : unidecode (unidecode s) = unidecode s := by
  simp only [unidecode]
  rw [unidecodeL_of_ascii _ (unidecodeL_ascii s.data)]

theorem foldRow_idem (r : Row) : foldRow (foldRow r) = foldRow r := by
  simp [foldRow, unidecode_idem]

theorem foldRow_citations (r : Row) : (foldRow r).citations = r.citations := rfl

theorem rowKey_foldRow (r : Row) :
    rowKey (foldRow r) = (unidecode r.authors, unidecode r.title, r.year) := rfl

theorem citGe_refl (a : Option Int) : citGe a a = true := by
  cases a <;> simp [citGe]

theorem dropDupKey_subset {l : List Row} {seen : List (String × String × Int)} {r : Row}
    (h : r ∈ dropDupKey l seen) : r ∈ l := by
  induction l generalizing seen with
  | nil => simp [dropDupKey] at h
  | cons x rest ih =>
    by_cases hx : rowKey x ∈ seen
    · simp only [dropDupKey, if_pos hx] at h
      exact List.mem_cons_of_mem x (ih h)
    · simp only [dropDupKey, if_neg hx] at h
      rcases List.mem_cons.mp h with h | h
      · exact h ▸ List.mem_cons_self x rest
      · exact List.mem_cons_of_mem x (ih h)

theorem dropDupKey_not_seen {l : List Row} {seen : List (String × String × Int)} {r : Row}
    (h : r ∈ dropDupKey l seen) : rowKey r ∉ seen := by
  induction l generalizing seen with
  | nil => simp [dropDupKey] at h
  | cons x rest ih =>
    by_cases hx : rowKey x ∈ seen
    · simp only [dropDupKey, if_pos hx] at h
      exact ih h
    · simp only [dropDupKey, if_neg hx] at h
      rcases List.mem_cons.mp h with h | h
      · exact h ▸ hx
      · intro hm
        exact ih h (List.mem_cons_of_mem _ hm)

theorem dropDupKey_pairwise (l : List Row) (seen : List (String × String × Int)) :
    (dropDupKey l seen).Pairwise (fun a b => rowKey a ≠ rowKey b) := by
  induction l generalizing seen with
  | nil => simp [dropDupKey]
  | cons x rest ih =>
    by_cases hx : rowKey x ∈ seen
    · simpa [dropDupKey, if_pos hx] using ih seen
    · simp only [dropDupKey, if_neg hx]
      refine List.Pairwise.cons ?_ (ih (rowKey x :: seen))
      intro b hb hkey
      refine dropDupKey_not_seen hb ?_
      rw [← hkey]
      exact List.mem_cons_self _ _

theorem dropDupKey_covers {l : List Row} {seen : List (String × String × Int)} {s : Row}
    (hs : s ∈ l) (hns : rowKey s ∉ seen) :
    ∃ r ∈ dropDupKey l seen, rowKey r = rowKey s := by
  induction l generalizing seen with
  | nil => cases hs
  | cons x rest ih =>
    by_cases hx : rowKey x ∈ seen
    · rcases List.mem_cons.mp hs with rfl | hs
      · exact absurd hx hns
      · simpa [dropDupKey, if_pos hx] using ih hs hns
    · simp only [dropDupKey, if_neg hx]
      rcases List.mem_cons.mp hs with rfl | hs
      · exact ⟨s, List.mem_cons_self _ _, rfl⟩
      · by_cases hk : rowKey s = rowKey x
        · exact ⟨x, List.mem_cons_self _ _, hk.symm⟩
        · have hns2 : rowKey s ∉ rowKey x :: seen := by
            intro hm
            rcases List.mem_cons.mp hm with hm | hm
            · exact hk hm
            · exact hns hm
          obtain ⟨r, hr, hkeq⟩ := ih hs hns2
          exact ⟨r, List.mem_cons_of_mem _ hr, hkeq⟩

theorem dropDupKey_max {l : List Row} {seen : List (String × String × Int)} {r s : Row}
    (hsort : l.Pairwise citRel) (hr : r ∈ dropDupKey l seen) (hs : s ∈ l)
    (hk : rowKey s = rowKey r) : citRel r s ∨ rowKey r ∈ seen := by
  induction l generalizing seen with
  | nil => cases hs
  | cons x rest ih =>
    have hsort2 : rest.Pairwise citRel := hsort.of_cons
    have hxrest : ∀ b ∈ rest, citRel x b := fun b hb => List.rel_of_pairwise_cons hsort hb
    by_cases hx : rowKey x ∈ seen
    · simp only [dropDupKey, if_pos hx] at hr
      rcases List.mem_cons.mp hs with rfl | hs
      · exact Or.inr (hk ▸ hx)
      · exact ih hsort2 hr hs
    · simp only [dropDupKey, if_neg hx] at hr
      rcases List.mem_cons.mp hr with rfl | hr
      · rcases List.mem_cons.mp hs with hseq | hs
        · refine Or.inl ?_
          rw [hseq]
          unfold citRel
          exact citGe_refl _
        · exact Or.inl (hxrest s hs)
      · rcases List.mem_cons.mp hs with rfl | hs
        · refine absurd ?_ (dropDupKey_not_seen hr)
          rw [← hk]
          exact List.mem_cons_self _ _
        · rcases ih hsort2 hr hs with h | h
          · exact Or.inl h
          · rcases List.mem_cons.mp h with h | h
            · refine absurd ?_ (dropDupKey_not_seen hr)
              rw [h]
              exact List.mem_cons_self _ _
            · exact Or.inr h

theorem dropDupKey_eq_self {l : List Row} {seen : List (String × String × Int)}
    (hnd : l.Pairwise (fun a b => rowKey a ≠ rowKey b))
    (hdisj : ∀ r ∈ l, rowKey r ∉ seen) : dropDupKey l seen = l := by
  induction l generalizing seen with
  | nil => rfl
  | cons x rest ih =>
    have hx : rowKey x ∉ seen := hdisj x (List.mem_cons_self _ _)
    simp only [dropDupKey, if_neg hx]
    congr 1
    refine ih hnd.of_cons ?_
    intro r hr hm
    rcases List.mem_cons.mp hm with hm | hm
    · exact List.rel_of_pairwise_cons hnd hr hm.symm
    · exact hdisj r (List.mem_cons_of_mem _ hr) hm

theorem rem_duplicates_out_eq (df : List Row) :
    (rem_duplicates df).1
      = List.insertionSort titleRel
          (drop_duplicates (List.insertionSort citRel (df.map foldRow))) := rfl

theorem rem_duplicates_counts (df : List Row) :
    (rem_duplicates df).2.1 = (rem_duplicates df).1.length
      ∧ (rem_duplicates df).2.2 = df.length := by
  refine ⟨rfl, ?_⟩
  simp [rem_duplicates]

theorem rem_duplicates_out_perm (df : List Row) :
    (rem_duplicates df).1.Perm
      (drop_duplicates (List.insertionSort citRel (df.map foldRow))) := by
  rw [rem_duplicates_out_eq]
  exact List.perm_insertionSort _ _

theorem rem_duplicates_nodup_keys (df : List Row) :
    ((rem_duplicates df).1.map rowKey).Nodup := by
  have h1 : (drop_duplicates (List.insertionSort citRel (df.map foldRow))).Pairwise
      (fun a b => rowKey a ≠ rowKey b) := dropDupKey_pairwise _ _
  have h2 : ((drop_duplicates (List.insertionSort citRel (df.map foldRow))).map rowKey).Nodup :=
    List.pairwise_map.mpr h1
  exact (((rem_duplicates_out_perm df).map rowKey).nodup_iff).mpr h2

theorem rem_duplicates_mem_fold {df : List Row} {r : Row}
    (h : r ∈ (rem_duplicates df).1) : r ∈ df.map foldRow := by
  have h1 : r ∈ drop_duplicates (List.insertionSort citRel (df.map foldRow)) :=
    (rem_duplicates_out_perm df).mem_iff.mp h
  have h2 : r ∈ List.insertionSort citRel (df.map foldRow) := dropDupKey_subset h1
  exact (List.perm_insertionSort _ _).mem_iff.mp h2

theorem rem_duplicates_covers {df : List Row} {s : Row} (hs : s ∈ df) :
    rowKey (foldRow s) ∈ (rem_duplicates df).1.map rowKey := by
  have hs1 : foldRow s ∈ List.insertionSort citRel (df.map foldRow) :=
    (List.perm_insertionSort _ _).mem_iff.mpr (List.mem_map_of_mem foldRow hs)
  obtain ⟨r, hr, hkeq⟩ := dropDupKey_covers hs1 (List.not_mem_nil _)
  have hr2 : r ∈ (rem_duplicates df).1 := (rem_duplicates_out_perm df).mem_iff.mpr hr
  exact hkeq ▸ List.mem_map_of_mem rowKey hr2

theorem rem_duplicates_max {df : List Row} {r s : Row}
    (hr : r ∈ (rem_duplicates df).1) (hs : s ∈ df)
    (hk : rowKey (foldRow s) = rowKey r) : citGe r.citations s.citations = true := by
  have hr1 : r ∈ drop_duplicates (List.insertionSort citRel (df.map foldRow)) :=
    (rem_duplicates_out_perm df).mem_iff.mp hr
  have hs1 : foldRow s ∈ List.insertionSort citRel (df.map foldRow) :=
    (List.perm_insertionSort _ _).mem_iff.mpr (List.mem_map_of_mem foldRow hs)
  have hsorted : (List.insertionSort citRel (df.map foldRow)).Pairwise citRel :=
    List.sorted_insertionSort citRel (df.map foldRow)
  rcases dropDupKey_max hsorted hr1 hs1 hk with h | h
  · unfold citRel at h
    rw [foldRow_citations] at h
    exact h
  · cases h

theorem rem_duplicates_fold_fix {df : List Row} {r : Row}
    (h : r ∈ (rem_duplicates df).1) : foldRow r = r := by
  obtain ⟨x, _, hx⟩ := List.mem_map.mp (rem_duplicates_mem_fold h)
  rw [← hx]
  exact foldRow_idem x

theorem length_filter_eq_one {l : List Row} {k : String × String × Int}
    (hnd : (l.map rowKey).Nodup) (hm : k ∈ l.map rowKey) :
    (l.filter (fun r => decide (rowKey r = k))).length = 1 := by
  induction l with
  | nil => cases hm
  | cons x rest ih =>
    simp only [List.map_cons, List.nodup_cons] at hnd
    by_cases hk : rowKey x = k
    · have hnone : ∀ r ∈ rest, ¬ rowKey r = k := by
        intro r hr hrk
        exact hnd.1 (hk ▸ hrk ▸ List.mem_map_of_mem rowKey hr)
      rw [List.filter_cons_of_pos (by simpa using hk)]
      rw [List.filter_eq_nil_iff.mpr (by simpa using hnone)]
      rfl
    · rcases List.mem_cons.mp hm with hm1 | hm2
      · exact absurd hm1.symm hk
      · rw [List.filter_cons_of_neg (by simpa using hk)]
        exact ih hnd.2 hm2

/-! The claims. -/

/-- C1: in every deduplicated table produced by rem_duplicates, each
retained row carries a maximal Citations value within its normalized
(Authors, Title, Year) key group, where a missing count compares below
every number; in particular, merging three 1-row sources with identical
normalized key (smith, x, 2020) and citations 5, 10 and 2 deduplicates to
exactly the one row with Citations = 10. -/
theorem C1_citation_priority :
    (∀ (df : List Row), ∀ r ∈ (rem_duplicates df).1, ∀ s ∈ df,
        rowKey (foldRow s) = rowKey r → citGe r.citations s.citations = true)
    ∧ rem_duplicates (merge_dfs
          [⟨"smith", "x", 2020, "Web of Science", some 5⟩]
          [⟨"smith", "x", 2020, "Scopus", some 10⟩]
          [⟨"smith", "x", 2020, "ProQuest", some 2⟩])
        = ([⟨"smith", "x", 2020, "Scopus", some 10⟩], 1, 3) := by
  constructor
  · intro df r hr s hs hk
    exact rem_duplicates_max hr hs hk
  · decide

theorem C1_citation_priority_witness :
    citGe (some 10) (some 5) = true :=
  C1_citation_priority.1
    [⟨"smith", "x", 2020, "Web of Science", some 5⟩, ⟨"smith", "x", 2020, "Scopus", some 10⟩]
    ⟨"smith", "x", 2020, "Scopus", some 10⟩ (by decide)
    ⟨"smith", "x", 2020, "Web of Science", some 5⟩ (by decide) (by decide)

/-- C2: the deduplicated output of rem_duplicates has pairwise distinct
normalized (Authors, Title, Year) keys, and every input row finds exactly
one output row carrying its normalized key: key groups collapse to one row
and rows with differing keys are never merged away. -/
theorem C2_key_uniqueness (df : List Row) :
    ((rem_duplicates df).1.map rowKey).Nodup
    ∧ ∀ s ∈ df,
        ((rem_duplicates df).1.filter
          (fun r => decide (rowKey r = rowKey (foldRow s)))).length = 1 := by
  refine ⟨rem_duplicates_nodup_keys df, ?_⟩
  intro s hs
  exact length_filter_eq_one (rem_duplicates_nodup_keys df) (rem_duplicates_covers hs)

theorem C2_key_uniqueness_witness :
    ((rem_duplicates [⟨"smith", "x", 2020, "Web of Science", some 5⟩,
        ⟨"smith", "x", 2020, "Scopus", some 10⟩,
        ⟨"jones", "y", 2021, "ProQuest", none⟩]).1.filter
      (fun r => decide (rowKey r
        = rowKey (foldRow ⟨"smith", "x", 2020, "Web of Science", some 5⟩)))).length = 1 :=
  (C2_key_uniqueness [⟨"smith", "x", 2020, "Web of Science", some 5⟩,
      ⟨"smith", "x", 2020, "Scopus", some 10⟩,
      ⟨"jones", "y", 2021, "ProQuest", none⟩]).2
    ⟨"smith", "x", 2020, "Web of Science", some 5⟩ (by decide)

/-- C7: the deduplicator is idempotent: applied to the table component of
its own output it returns the same rows (a permutation with nothing
dropped) and both reported counts equal that row count, so no further rows
are removed. -/
theorem C7_idempotent (df : List Row) :
    (rem_duplicates ((rem_duplicates df).1)).1.Perm ((rem_duplicates df).1)
    ∧ (rem_duplicates ((rem_duplicates df).1)).2.1 = ((rem_duplicates df).1).length
    ∧ (rem_duplicates ((rem_duplicates df).1)).2.2 = ((rem_duplicates df).1).length := by
  have hmap : ((rem_duplicates df).1).map foldRow = (rem_duplicates df).1 := by
    have h1 : ∀ r ∈ (rem_duplicates df).1, foldRow r = r :=
      fun r hr => rem_duplicates_fold_fix hr
    rw [List.map_congr_left h1]
    exact List.map_id' _
  have hperm1 : (List.insertionSort citRel (((rem_duplicates df).1).map foldRow)).Perm
      ((rem_duplicates df).1) := by
    rw [hmap]
    exact List.perm_insertionSort _ _
  have hnodupS : ((List.insertionSort citRel (((rem_duplicates df).1).map foldRow)).map
      rowKey).Nodup :=
    ((hperm1.map rowKey).nodup_iff).mpr (rem_duplicates_nodup_keys df)
  have hpairS : (List.insertionSort citRel (((rem_duplicates df).1).map foldRow)).Pairwise
      (fun a b => rowKey a ≠ rowKey b) := List.pairwise_map.mp hnodupS
  have hdrop : drop_duplicates (List.insertionSort citRel (((rem_duplicates df).1).map foldRow))
      = List.insertionSort citRel (((rem_duplicates df).1).map foldRow) :=
    dropDupKey_eq_self hpairS (fun r _ => List.not_mem_nil _)
  have hout : (rem_duplicates ((rem_duplicates df).1)).1.Perm ((rem_duplicates df).1) := by
    rw [rem_duplicates_out_eq, hdrop]
    exact (List.perm_insertionSort _ _).trans hperm1
  refine ⟨hout, ?_, ?_⟩
  · rw [(rem_duplicates_counts ((rem_duplicates df).1)).1]
    exact hout.length_eq
  · exact (rem_duplicates_counts ((rem_duplicates df).1)).2

/-- C8 counterexample: rem_duplicates does not leave its input table
unchanged; the diacritic-folding step writes the folded Authors and Title
back into the caller-visible input frame, so a one-row input with an
accented author comes back mutated. -/
theorem C8_frame_counterexample :
    rem_duplicates_input_after [⟨"é", "t", 2020, "Scopus", some 1⟩]
        = [⟨"e", "t", 2020, "Scopus", some 1⟩]
    ∧ rem_duplicates_input_after [⟨"é", "t", 2020, "Scopus", some 1⟩]
        ≠ [⟨"é", "t", 2020, "Scopus", some 1⟩] := by
  exact ⟨by decide, by decide⟩

/-- C8 amended: after rem_duplicates returns, the caller-visible input
table has the same row count and, row by row, unchanged Year, Database and
Citations, while Authors and Title now hold their unidecoded forms (so the
input is untouched exactly when those two fields were already folded); the
sorting and duplicate-dropping steps build new tables. -/
theorem C8_input_mutation (df : List Row) :
    (rem_duplicates_input_after df).length = df.length
    ∧ ∀ (i : Nat) (r r' : Row), df[i]? = some r →
        (rem_duplicates_input_after df)[i]? = some r' →
        r'.authors = unidecode r.authors ∧ r'.title = unidecode r.title
          ∧ r'.year = r.year ∧ r'.database = r.database ∧ r'.citations = r.citations := by
  constructor
  · simp [rem_duplicates_input_after]
  · intro i r r' hr hr'
    rw [rem_duplicates_input_after, List.getElem?_map, hr] at hr'
    simp only [Option.map_some'] at hr'
    rw [← Option.some_inj.mp hr']
    exact ⟨rfl, rfl, rfl, rfl, rfl⟩

theorem selectColsE_error {df : DF} {cs : List String} {c : String}
    (hc : c ∈ cs) (hnc : c ∉ df.cols) :
    ∃ miss, selectColsE df cs = .error ⟨miss⟩ ∧ c ∈ miss := by
  have hcm : c ∈ cs.filter (fun x => !(df.cols.contains x)) := by
    refine List.mem_filter.mpr ⟨hc, ?_⟩
    simp only [Bool.not_eq_true', ← Bool.not_eq_true]
    intro hcon
    exact hnc (List.elem_iff.mp hcon)
  refine ⟨cs.filter (fun x => !(df.cols.contains x)), ?_, hcm⟩
  unfold selectColsE
  rw [if_neg (List.ne_nil_of_mem hcm)]

/-- C5: when a required source-specific column is absent from the raw
table, the corresponding adapter fails with a SchemaMismatch error whose
missing-column list names that column, and no output table is produced
for that source (the adapters return only on a complete selection; nulls
are never substituted). -/
theorem C5_schema_mismatch :
    (∀ (df : DF) (c : String), c ∈ wosRequired → c ∉ df.cols →
        ∃ e, adjust_wos df = .error e ∧ c ∈ e.missing)
    ∧ (∀ (df : DF) (c : String), c ∈ scopusCols → c ∉ df.cols →
        ∃ e, adjust_scopus df = .error e ∧ c ∈ e.missing)
    ∧ (∀ (df : DF) (c : String), c ∈ proquestCols → c ∉ df.cols →
        ∃ e, adjust_proquest df = .error e ∧ c ∈ e.missing) := by
  refine ⟨?_, ?_, ?_⟩
  · intro df c hc hnc
    have hne : c ≠ "Database" := by
      rintro rfl
      revert hc
      decide
    have hc2 : c ∈ wosCols := by
      have hsub : ∀ x ∈ wosRequired, x ∈ wosCols := by decide
      exact hsub c hc
    have hnc1 : c ∉ (setCol df "Database" (Value.str "Web of Science")).cols := by
      simp only [setCol]
      split
      · exact hnc
      · intro hmem
        rcases List.mem_append.mp hmem with hmem | hmem
        · exact hnc hmem
        · rcases List.mem_cons.mp hmem with hmem | hmem
          · exact hne hmem
          · cases hmem
    obtain ⟨miss, hsel, hcm⟩ := selectColsE_error hc2 hnc1
    refine ⟨⟨miss⟩, ?_, hcm⟩
    simp only [adjust_wos]
    rw [hsel]
    rfl
  · intro df c hc hnc
    obtain ⟨miss, hsel, hcm⟩ := selectColsE_error hc hnc
    refine ⟨⟨miss⟩, ?_, hcm⟩
    simp only [adjust_scopus]
    rw [hsel]
    rfl
  · intro df c hc hnc
    obtain ⟨miss, hsel, hcm⟩ := selectColsE_error hc hnc
    refine ⟨⟨miss⟩, ?_, hcm⟩
    simp only [adjust_proquest]
    rw [hsel]
    rfl

theorem C5_schema_mismatch_witness :
    ∃ e, adjust_wos ⟨["Article Title", "Publication Year", "Times Cited, WoS Core"], []⟩
        = .error e ∧ "Author Full Names" ∈ e.missing :=
  C5_schema_mismatch.1 ⟨["Article Title", "Publication Year", "Times Cited, WoS Core"], []⟩
    "Author Full Names" (by decide) (by decide)

theorem C8_input_mutation_witness :
    (⟨"e", "t", 2020, "Scopus", some 1⟩ : Row).authors = unidecode "é"
      ∧ (⟨"e", "t", 2020, "Scopus", some 1⟩ : Row).title = unidecode "t"
      ∧ (⟨"e", "t", 2020, "Scopus", some 1⟩ : Row).year = (2020 : Int)
      ∧ (⟨"e", "t", 2020, "Scopus", some 1⟩ : Row).database = "Scopus"
      ∧ (⟨"e", "t", 2020, "Scopus", some 1⟩ : Row).citations = some 1 :=
  (C8_input_mutation [⟨"é", "t", 2020, "Scopus", some 1⟩]).2 0
    ⟨"é", "t", 2020, "Scopus", some 1⟩ ⟨"e", "t", 2020, "Scopus", some 1⟩
    (by decide) (by decide)

/-- The one-row Web of Science raw table whose author field contains a tab
character, used to separate the space-only replacement from a full
whitespace removal. -/
def wosTabRaw : DF :=
  { cols := ["Author Full Names", "Article Title", "Publication Year", "Times Cited, WoS Core"],
    rows := [[("Author Full Names", Value.str "A\tB"), ("Article Title", Value.str "T"),
              ("Publication Year", Value.int 2020), ("Times Cited, WoS Core", Value.int 3)]] }

/-- C4 counterexample: the adapters do not remove all whitespace from the
Authors field, only the space character; on an author string containing a
tab, adjust_wos returns the tab untouched (lowercased around it), and the
tab is a whitespace character other than the space. -/
theorem C4_whitespace_counterexample :
    adjust_wos wosTabRaw = .ok
      { cols := ["Authors", "Title", "Year", "Database", "Citations"],
        rows := [[("Authors", Value.str "a\tb"), ("Title", Value.str "t"),
                  ("Year", Value.int 2020), ("Database", Value.str "Web of Science"),
                  ("Citations", Value.int 3)]] }
    ∧ '\t' ∈ ("a\tb".data) ∧ '\t'.isWhitespace = true ∧ '\t' ≠ ' ' := by
  exact ⟨by decide, by decide, by decide, by decide⟩

/-- The one-row Scopus raw table of the spec scenario: the author field
carries a parenthetical affiliation marker. -/
def scopusParenRaw : DF :=
  { cols := ["Author full names", "Title", "Year", "Source", "Cited by"],
    rows := [[("Author full names", Value.str "Smith, J. (Dept X)"), ("Title", Value.str "T"),
              ("Year", Value.int 2020), ("Source", Value.str "Scopus"),
              ("Cited by", Value.int 1)]] }

/-- A one-row ProQuest raw table with an ISO publication date. -/
def proquestRaw : DF :=
  { cols := ["Author", "Title", "PubDate", "Source", "Cited by"],
    rows := [[("Author", Value.str "Doe, J"), ("Title", Value.str "T2"),
              ("PubDate", Value.str "2021-05-01"), ("Source", Value.str "ProQuest"),
              ("Cited by", Value.int 0)]] }

/-- C4 amended: each adapter rewrites the Authors cell of every row to the
lowercased form of the source author cell with the space character (and
only the space character) removed, and the Title cell to the lowercased
source title (the Scopus adapter additionally deletes parenthesised
substrings from Authors and strips the ends); in general the characters of
the normalized author string are exactly the lowercased non-space
characters of the original. -/
theorem C4_amended :
    (∀ (df out : DF), adjust_wos df = .ok out → ∀ i : Nat,
        (out.rows[i]?).map (fun row => (getCell row "Authors", getCell row "Title"))
          = (df.rows[i]?).map (fun row =>
              (strVal pyLower (strVal removeSpaces (getCell row "Author Full Names")),
               strVal pyLower (getCell row "Article Title"))))
    ∧ (∀ (df out : DF), adjust_scopus df = .ok out → ∀ i : Nat,
        (out.rows[i]?).map (fun row => (getCell row "Authors", getCell row "Title"))
          = (df.rows[i]?).map (fun row =>
              (strVal (fun a => pyStrip (stripParensS a))
                 (strVal pyLower (strVal removeSpaces (getCell row "Author full names"))),
               strVal pyLower (getCell row "Title"))))
    ∧ (∀ (df out : DF), adjust_proquest df = .ok out → ∀ i : Nat,
        (out.rows[i]?).map (fun row => (getCell row "Authors", getCell row "Title"))
          = (df.rows[i]?).map (fun row =>
              (strVal pyLower (strVal removeSpaces (getCell row "Author")),
               strVal pyLower (getCell row "Title"))))
    ∧ (∀ (s : String) (c : Char),
        c ∈ (pyLower (removeSpaces s)).data ↔ ∃ c0 ∈ s.data, c0 ≠ ' ' ∧ c = c0.toLower) := by
  refine ⟨?_, ?_, ?_, ?_⟩
  · intro df out h i
    by_cases hmiss : wosCols.filter
        (fun c => !((setCol df "Database" (Value.str "Web of Science")).cols.contains c)) = []
    · simp only [adjust_wos, selectColsE, hmiss, if_pos, Bind.bind, Except.bind, pure,
        Except.pure, Except.ok.injEq] at h
      subst h
      simp only [mapCol, renameCols, setCol, List.map_map, List.getElem?_map]
      cases hrow : df.rows[i]? with
      | none => rfl
      | some row => rfl
    · simp only [adjust_wos, selectColsE, hmiss, if_neg, Bind.bind, Except.bind] at h
      cases h
  · intro df out h i
    by_cases hmiss : scopusCols.filter (fun c => !(df.cols.contains c)) = []
    · simp only [adjust_scopus, selectColsE, hmiss, if_pos, Bind.bind, Except.bind, pure,
        Except.pure, Except.ok.injEq] at h
      subst h
      simp only [mapCol, renameCols, List.map_map, List.getElem?_map]
      cases hrow : df.rows[i]? with
      | none => rfl
      | some row => rfl
    · simp only [adjust_scopus, selectColsE, hmiss, if_neg, Bind.bind, Except.bind] at h
      cases h
  · intro df out h i
    by_cases hmiss : proquestCols.filter (fun c => !(df.cols.contains c)) = []
    · simp only [adjust_proquest, selectColsE, hmiss, if_pos, Bind.bind, Except.bind, pure,
        Except.pure, Except.ok.injEq] at h
      subst h
      simp only [mapCol, renameCols, List.map_map, List.getElem?_map]
      cases hrow : df.rows[i]? with
      | none => rfl
      | some row => rfl
    · simp only [adjust_proquest, selectColsE, hmiss, if_neg, Bind.bind, Except.bind] at h
      cases h
  · intro s c
    simp only [pyLower, removeSpaces, List.mem_map, List.mem_filter, decide_eq_true_eq]
    constructor
    · rintro ⟨c0, ⟨hc0, hsp⟩, rfl⟩
      exact ⟨c0, hc0, hsp, rfl⟩
    · rintro ⟨c0, hc0, hsp, rfl⟩
      exact ⟨c0, ⟨hc0, hsp⟩, rfl⟩

theorem C4_amended_witness :
    ((({ cols := ["Authors", "Title", "Year", "Database", "Citations"],
         rows := [[("Authors", Value.str "a\tb"), ("Title", Value.str "t"),
                   ("Year", Value.int 2020), ("Database", Value.str "Web of Science"),
                   ("Citations", Value.int 3)]] } : DF).rows[0]?).map
        (fun row => (getCell row "Authors", getCell row "Title"))
      = ((wosTabRaw.rows[0]?).map (fun row =>
          (strVal pyLower (strVal removeSpaces (getCell row "Author Full Names")),
           strVal pyLower (getCell row "Article Title")))))
    ∧ ((({ cols := ["Authors", "Title", "Year", "Database", "Citations"],
           rows := [[("Authors", Value.str "smith,j."), ("Title", Value.str "t"),
                     ("Year", Value.int 2020), ("Database", Value.str "Scopus"),
                     ("Citations", Value.int 1)]] } : DF).rows[0]?).map
        (fun row => (getCell row "Authors", getCell row "Title"))
      = ((scopusParenRaw.rows[0]?).map (fun row =>
          (strVal (fun a => pyStrip (stripParensS a))
             (strVal pyLower (strVal removeSpaces (getCell row "Author full names"))),
           strVal pyLower (getCell row "Title")))))
    ∧ ((({ cols := ["Authors", "Title", "Year", "Database", "Citations"],
           rows := [[("Authors", Value.str "doe,j"), ("Title", Value.str "t2"),
                     ("Year", Value.int 2021), ("Database", Value.str "ProQuest"),
                     ("Citations", Value.int 0)]] } : DF).rows[0]?).map
        (fun row => (getCell row "Authors", getCell row "Title"))
      = ((proquestRaw.rows[0]?).map (fun row =>
          (strVal pyLower (strVal removeSpaces (getCell row "Author")),
           strVal pyLower (getCell row "Title"))))) :=
  ⟨C4_amended.1 wosTabRaw _ (by decide) 0,
   C4_amended.2.1 scopusParenRaw _ (by decide) 0,
   C4_amended.2.2.1 proquestRaw _ (by decide) 0⟩

/-- C9: the Scopus adapter normalizes the author field "Smith, J. (Dept X)"
to exactly "smith,j.": spaces are removed, the string is lowercased, every
parenthesised substring is deleted, and the ends of the result are
stripped of whitespace (shown on the full adapter, on the author pipeline
alone, on a string with two parentheticals, and on a strip that removes
whitespace left at the ends). -/
theorem C9_scopus_author_scenario :
    adjust_scopus scopusParenRaw = .ok
      { cols := ["Authors", "Title", "Year", "Database", "Citations"],
        rows := [[("Authors", Value.str "smith,j."), ("Title", Value.str "t"),
                  ("Year", Value.int 2020), ("Database", Value.str "Scopus"),
                  ("Citations", Value.int 1)]] }
    ∧ pyStrip (stripParensS (pyLower (removeSpaces "Smith, J. (Dept X)"))) = "smith,j."
    ∧ stripParensS "x(a)y(b)" = "xy"
    ∧ pyStrip " smith,j.\t" = "smith,j." := by
  exact ⟨by decide, by decide, by decide, by decide⟩

/-- An environment in which both parsers fail: the csv parser raises and
the excel parser raises. -/
def envBothFail : PandasEnv :=
  { read_csv := fun _ => .error "csv parse failure",
    read_excel := fun _ => .error "excel parse failure" }

/-- An environment in which the csv parser returns an empty table and the
excel parser raises. -/
def envCsvOk : PandasEnv :=
  { read_csv := fun _ => .ok ⟨[], []⟩,
    read_excel := fun _ => .error "excel parse failure" }

/-- An environment in which both parsers return an empty table. -/
def envBothOk : PandasEnv :=
  { read_csv := fun _ => .ok ⟨[], []⟩,
    read_excel := fun _ => .ok ⟨[], []⟩ }

/-- C6: the loader parses a path ending in ".csv" with the delimited-text
parser regardless of content (the result does not depend on the
spreadsheet parser at all), attempts spreadsheet parsing for every other
suffix, and when spreadsheet parsing fails it produces no table and only
prints the "Wrong file format" diagnostic instead of raising. -/
theorem C6_read_file_dispatch :
    (∀ (env env2 : PandasEnv) (fn : String), endsWithCsv fn = true →
        env.read_csv = env2.read_csv → read_file env fn = read_file env2 fn)
    ∧ (∀ (env : PandasEnv) (fn : String) (t : DF), endsWithCsv fn = true →
        env.read_csv fn = .ok t → read_file env fn = .table t)
    ∧ (∀ (env : PandasEnv) (fn : String) (t : DF), endsWithCsv fn = false →
        env.read_excel fn = .ok t → read_file env fn = .table t)
    ∧ (∀ (env : PandasEnv) (fn : String) (e : String), endsWithCsv fn = false →
        env.read_excel fn = .error e →
        read_file env fn = .printedNone "Wrong file format") := by
  refine ⟨?_, ?_, ?_, ?_⟩
  · intro env env2 fn hcsv he
    simp [read_file, hcsv, he]
  · intro env fn t hcsv h
    simp [read_file, hcsv, h]
  · intro env fn t hcsv h
    simp [read_file, hcsv, h]
  · intro env fn e hcsv h
    simp [read_file, hcsv, h]

theorem C6_read_file_dispatch_witness :
    read_file envCsvOk "a.csv" = read_file ⟨envCsvOk.read_csv, fun _ => .ok ⟨[], []⟩⟩ "a.csv"
    ∧ read_file envCsvOk "a.csv" = .table ⟨[], []⟩
    ∧ read_file envBothOk "a.xlsx" = .table ⟨[], []⟩
    ∧ read_file envCsvOk "a.xlsx" = .printedNone "Wrong file format" :=
  ⟨C6_read_file_dispatch.1 envCsvOk ⟨envCsvOk.read_csv, fun _ => .ok ⟨[], []⟩⟩ "a.csv"
      (by decide) rfl,
   C6_read_file_dispatch.2.1 envCsvOk "a.csv" ⟨[], []⟩ (by decide) rfl,
   C6_read_file_dispatch.2.2.1 envBothOk "a.xlsx" ⟨[], []⟩ (by decide) rfl,
   C6_read_file_dispatch.2.2.2 envCsvOk "a.xlsx" "excel parse failure" (by decide) rfl⟩

/-- C10: when a path ends in ".csv" and the delimited-text parser fails,
read_file propagates the exception uncaught to the caller; the printed
"no table" diagnostic never occurs on the CSV branch, and conversely the
non-CSV branch never lets an exception escape. -/
theorem C10_csv_error_propagates :
    (∀ (env : PandasEnv) (fn : String) (e : String), endsWithCsv fn = true →
        env.read_csv fn = .error e → read_file env fn = .raised e)
    ∧ (∀ (env : PandasEnv) (fn : String) (d : String), endsWithCsv fn = true →
        read_file env fn ≠ .printedNone d)
    ∧ (∀ (env : PandasEnv) (fn : String) (e : String), endsWithCsv fn = false →
        read_file env fn ≠ .raised e) := by
  refine ⟨?_, ?_, ?_⟩
  · intro env fn e hcsv h
    simp [read_file, hcsv, h]
  · intro env fn d hcsv
    simp only [read_file, hcsv, if_true]
    cases env.read_csv fn <;> simp
  · intro env fn e hcsv
    simp only [read_file, hcsv, Bool.false_eq_true, if_false]
    cases env.read_excel fn <;> simp

theorem C10_csv_error_propagates_witness :
    read_file envBothFail "a.csv" = .raised "csv parse failure"
    ∧ read_file envBothFail "a.csv" ≠ .printedNone "Wrong file format"
    ∧ read_file envBothFail "a.xlsx" ≠ .raised "excel parse failure" :=
  ⟨C10_csv_error_propagates.1 envBothFail "a.csv" "csv parse failure" (by decide) rfl,
   C10_csv_error_propagates.2.1 envBothFail "a.csv" "Wrong file format" (by decide),
   C10_csv_error_propagates.2.2 envBothFail "a.xlsx" "excel parse failure" (by decide)⟩
